import Mathlib

/-!
Verification of the indexing / scoring / action-resolution core of the
`rust-launcher` desktop quick-launcher (sources under `src-tauri/src/`).

The Rust code is shallowly embedded: pure logic is translated into
executable Lean definitions; OS-facing collaborators (filesystem walks,
registry reads, the external fuzzy matcher, the URL-encoder, the shell
launch primitives, the SHA1 hash and the pinyin keyword-expansion
service) are passed in as function parameters, exactly at the boundaries
the code itself treats them as adapters.

String primitives (trim, lowercase, split, comparison) are re-implemented
below over `String.data` so that every definition evaluates inside the
kernel; they model the Rust `str` operations, with Unicode-whitespace /
Unicode-lowercasing approximated at ASCII granularity (all ASCII inputs
behave identically, and no theorem below depends on the difference).
Rust's stable sorts (`sort`, `sort_by`) are modelled by
`List.insertionSort`, which is stable for the same comparator and hence
extensionally equal to the stable merge sort the standard library uses.
-/

/-- ASCII whitespace test, modelling `char::is_whitespace` on the ASCII range. -/
def isWs (c : Char) : Bool :=
  c = ' ' || c = '\t' || c = '\n' || c = '\r'

/-- Models Rust `str::trim`. -/
def rsTrim (s : String) : String :=
  ⟨((s.data.dropWhile isWs).reverse.dropWhile isWs).reverse⟩

/-- Models Rust `str::to_lowercase` / `str::to_ascii_lowercase`
(`Char.toLower` lowercases exactly the ASCII uppercase range). -/
def rsToLower (s : String) : String :=
  ⟨s.data.map Char.toLower⟩

def listStartsWith : List Char → List Char → Bool
  | [], _ => true
  | _ :: _, [] => false
  | p :: ps, c :: cs => p = c && listStartsWith ps cs

/-- Models Rust `str::starts_with`. -/
def rsStartsWith (s pre : String) : Bool :=
  listStartsWith pre.data s.data

/-- Models Rust `str::contains(char)`. -/
def rsContains (s : String) (c : Char) : Bool :=
  s.data.any (· = c)

def splitWsAux : List Char → List Char → List String
  | [], acc => if acc.isEmpty then [] else [⟨acc.reverse⟩]
  | c :: cs, acc =>
    if isWs c then
      if acc.isEmpty then splitWsAux cs [] else (⟨acc.reverse⟩ : String) :: splitWsAux cs []
    else splitWsAux cs (c :: acc)

/-- Models Rust `str::split_whitespace` (whitespace-separated tokens, empties skipped). -/
def splitWs (s : String) : List String :=
  splitWsAux s.data []

def splitCharAux (sep : Char) : List Char → List Char → List String
  | [], acc => [⟨acc.reverse⟩]
  | c :: cs, acc =>
    if c = sep then (⟨acc.reverse⟩ : String) :: splitCharAux sep cs []
    else splitCharAux sep cs (c :: acc)

/-- Models Rust `str::split(char)` (keeps empty segments). -/
def rsSplitChar (s : String) (sep : Char) : List String :=
  splitCharAux sep s.data []

/-- Models Rust `Vec::<String>::join(sep)`. -/
def joinSep (sep : String) : List String → String
  | [] => ""
  | [s] => s
  | s :: rest => s ++ sep ++ joinSep sep rest

/-- Lexicographic comparison of char lists by code point; Rust `String`
order is byte-lexicographic on UTF-8, which coincides with
code-point-lexicographic order. -/
def listCharLe : List Char → List Char → Bool
  | [], _ => true
  | _ :: _, [] => false
  | a :: as, b :: bs => if a < b then true else if b < a then false else listCharLe as bs

/-- Models Rust `String` ordering (`Ord`), as a Bool. -/
def rsLe (s t : String) : Bool :=
  listCharLe s.data t.data

/-- Rust `String` ordering as a Prop, for use with `List.insertionSort`. -/
def strLe (a b : String) : Prop := rsLe a b = true

instance : DecidableRel strLe := fun a b => instDecidableEqBool (rsLe a b) true

theorem listCharLe_total : ∀ xs ys : List Char, listCharLe xs ys = true ∨ listCharLe ys xs = true
  | [], _ => Or.inl rfl
  | _ :: _, [] => Or.inr rfl
  | a :: as, b :: bs => by
    by_cases hab : a < b
    · left; simp [listCharLe, hab]
    · by_cases hba : b < a
      · right; simp [listCharLe, hba, asymm hba]
      · have := listCharLe_total as bs
        simp [listCharLe, hab, hba]
        exact this

theorem listCharLe_trans : ∀ xs ys zs : List Char,
    listCharLe xs ys = true → listCharLe ys zs = true → listCharLe xs zs = true
  | [], _, _, _, _ => rfl
  | _ :: _, [], _, h, _ => by simp [listCharLe] at h
  | _ :: _, _ :: _, [], _, h => by simp [listCharLe] at h
  | a :: as, b :: bs, c :: cs, h1, h2 => by
    by_cases hab : a < b
    · by_cases hbc : b < c
      · simp [listCharLe, lt_trans hab hbc]
      · by_cases hcb : c < b
        · simp [listCharLe, hbc, hcb] at h2
        · have hbc' : b = c := le_antisymm (not_lt.mp hcb) (not_lt.mp hbc)
          simp [listCharLe, hbc' ▸ hab]
    · by_cases hba : b < a
      · simp [listCharLe, hab, hba] at h1
      · have hab' : a = b := le_antisymm (not_lt.mp hba) (not_lt.mp hab)
        subst hab'
        by_cases hbc : a < c
        · simp [listCharLe, hbc]
        · by_cases hcb : c < a
          · simp [listCharLe, hbc, hcb] at h2
          · simp [listCharLe, hab, hba] at h1
            simp [listCharLe, hbc, hcb] at h2 ⊢
            exact listCharLe_trans as bs cs h1 h2

theorem listCharLe_antisymm : ∀ xs ys : List Char,
    listCharLe xs ys = true → listCharLe ys xs = true → xs = ys
  | [], [], _, _ => rfl
  | [], _ :: _, _, h => by simp [listCharLe] at h
  | _ :: _, [], h, _ => by simp [listCharLe] at h
  | a :: as, b :: bs, h1, h2 => by
    by_cases hab : a < b
    · simp [listCharLe, hab, asymm hab] at h2
    · by_cases hba : b < a
      · simp [listCharLe, hab, hba] at h1
      · have hab' : a = b := le_antisymm (not_lt.mp hba) (not_lt.mp hab)
        subst hab'
        simp [listCharLe, hab, hba] at h1 h2
        simp [listCharLe_antisymm as bs h1 h2]

theorem strLe_total (a b : String) : strLe a b ∨ strLe b a :=
  listCharLe_total a.data b.data

theorem strLe_trans {a b c : String} (h1 : strLe a b) (h2 : strLe b c) : strLe a c :=
  listCharLe_trans a.data b.data c.data h1 h2

theorem strLe_antisymm {a b : String} (h1 : strLe a b) (h2 : strLe b a) : a = b := by
  cases a with
  | mk da => cases b with
    | mk db => exact congrArg String.mk (listCharLe_antisymm da db h1 h2)

instance : IsTotal String strLe := ⟨strLe_total⟩

instance : IsTrans String strLe := ⟨fun _ _ _ => strLe_trans⟩

/-! ## Data model (src-tauri/src/models.rs, bookmarks.rs, state.rs) -/

/-- Rust `AppType` (models.rs:4). -/
inductive AppType where
  | win32
  | uwp
deriving DecidableEq, Repr

/-- Rust `ApplicationInfo` (models.rs:10). -/
structure ApplicationInfo where
  id : String
  name : String
  path : String
  source_path : Option String
  app_type : AppType
  icon_b64 : String
  description : Option String
  keywords : List String
deriving DecidableEq, Repr

/-- Rust `BookmarkEntry` (bookmarks.rs:11). -/
structure BookmarkEntry where
  id : String
  title : String
  url : String
  folder_path : Option String
  keywords : List String
deriving DecidableEq, Repr

/-- Rust `SearchResult` (models.rs:22); `score` is an `i64` that never overflows here. -/
structure SearchResult where
  id : String
  title : String
  subtitle : String
  icon : String
  score : Int
  action_id : String
deriving DecidableEq, Repr

/-- Rust `PendingAction` (state.rs:9). -/
inductive PendingAction where
  | application (app : ApplicationInfo)
  | bookmark (entry : BookmarkEntry)
  | url (u : String)
  | search (u : String)
deriving DecidableEq

/-- The pending-action cache `HashMap<String, PendingAction>` (state.rs:22),
modelled by its lookup function. -/
def PMap : Type := String → Option PendingAction

/-- Models `HashMap::insert` (later inserts overwrite earlier ones on the same key). -/
def pinsert (cache : PMap) (k : String) (v : PendingAction) : PMap :=
  fun x => if x = k then some v else cache x

/-- Models `HashMap::clear`. -/
def pclear (_cache : PMap) : PMap := fun _ => none

/-- Models `HashMap::extend` (entries of `new` overwrite entries of `m`). -/
def pextend (m new : PMap) : PMap :=
  fun x => match new x with
    | some v => some v
    | none => m x

/-- The empty cache. -/
def pempty : PMap := fun _ => none

/-- The relevant slice of `AppConfig` read by `submit_query` (commands.rs:113-122). -/
structure Config where
  max_results : Nat
  enable_app_results : Bool
  enable_bookmark_results : Bool
deriving DecidableEq, Repr

/-! ## Query engine (src-tauri/src/commands.rs) -/

/-- Rust `QueryMode` (commands.rs:67). -/
inductive QueryMode where
  | all
  | bookmark
  | application
  | search
deriving DecidableEq, Repr

/-- Embeds `QueryMode::from_option` (commands.rs:75). -/
def QueryMode.from_option (mode : Option String) : QueryMode :=
  match mode with
  | none => .all
  | some raw =>
    let v := rsToLower (rsTrim raw)
    if v = "bookmark" ∨ v = "bookmarks" ∨ v = "b" then .bookmark
    else if v = "app" ∨ v = "apps" ∨ v = "application" ∨ v = "r" then .application
    else if v = "search" ∨ v = "s" then .search
    else .all

/-- Embeds `QueryMode::allows_bookmarks` (commands.rs:88). -/
def QueryMode.allows_bookmarks : QueryMode → Bool
  | .all | .bookmark => true
  | _ => false

/-- Embeds `QueryMode::allows_applications` (commands.rs:92). -/
def QueryMode.allows_applications : QueryMode → Bool
  | .all | .application => true
  | _ => false

/-- Embeds `QueryMode::allows_web_search` (commands.rs:96). -/
def QueryMode.allows_web_search : QueryMode → Bool
  | .all | .search => true
  | _ => false

/-- The `MIN_RESULT_LIMIT` / `MAX_RESULT_LIMIT` clamping of `max_results`
(commands.rs:120-125); the `= 0` fallback is unreachable after the clamp. -/
def resultLimit (cfg : Config) : Nat :=
  let r := min 60 (max 10 cfg.max_results)
  if r = 0 then 10 else r

/-- The external fuzzy matcher `SkimMatcherV2::fuzzy_match(choice, pattern)`
(an external crate), abstracted: `m field query` returns a score or no-match. -/
def Matcher : Type := String → String → Option Int

/-- Embeds `is_url_like` (commands.rs:564): `&&` binds tighter than `||` in Rust,
so the dot test applies only to the single-token disjunct. -/
def is_url_like (input : String) : Bool :=
  rsStartsWith input "http://" || rsStartsWith input "https://" ||
    (rsContains input '.' && (splitWs input).length = 1)

/-- The score-update step shared by `match_application` / `match_bookmark`:
`if best.is_none_or(|current| score > current) { best = Some(score) }`. -/
def optBetter (best : Option Int) (score : Int) : Option Int :=
  match best with
  | none => some score
  | some current => if score > current then some score else some current

/-- Embeds `match_application` (commands.rs:570): best of name match and
keyword matches at a penalty of 5, empty keywords skipped. -/
def match_application (m : Matcher) (app : ApplicationInfo) (query : String) : Option Int :=
  app.keywords.foldl
    (fun best keyword =>
      if keyword = "" then best
      else
        match m keyword query with
        | none => best
        | some score => optBetter best (score - 5))
    (m app.name query)

/-- Embeds `match_bookmark` (commands.rs:687): best of title, folder path (−5),
URL (−8) and keywords (−8), empty keywords skipped. -/
def match_bookmark (m : Matcher) (bookmark : BookmarkEntry) (query : String) : Option Int :=
  let best := m bookmark.title query
  let best :=
    match bookmark.folder_path with
    | some path =>
      match m path query with
      | none => best
      | some score => optBetter best (score - 5)
    | none => best
  let best :=
    match (m bookmark.url query).map (fun v => v - 8) with
    | none => best
    | some score => optBetter best score
  bookmark.keywords.foldl
    (fun best keyword =>
      if keyword = "" then best
      else
        match m keyword query with
        | none => best
        | some score => optBetter best (score - 8))
    best

/-- The URL pseudo-result (commands.rs:139-146); it is pushed first,
so its id is always `url-0`. -/
def urlResult (q : String) : SearchResult :=
  { id := "url-0", title := "打开网址: " ++ q, subtitle := q, icon := "",
    score := 200, action_id := "url" }

/-- A matched application's `SearchResult` (commands.rs:174-190). -/
def appResult (app : ApplicationInfo) (score : Int) : SearchResult :=
  { id := "app-" ++ app.id
    title := app.name
    subtitle :=
      match app.description.filter (fun d => ¬ d = "") with
      | some d => d
      | none =>
        match app.source_path with
        | some s => s
        | none => app.path
    icon := app.icon_b64
    score := score
    action_id :=
      match app.app_type with
      | .win32 => "app"
      | .uwp => "uwp" }

/-- A matched bookmark's `SearchResult` (commands.rs:199-213). -/
def bmResult (bookmark : BookmarkEntry) (score : Int) : SearchResult :=
  { id := "bookmark-" ++ bookmark.id
    title := bookmark.title
    subtitle :=
      match bookmark.folder_path with
      | some path => "收藏夹 · " ++ path ++ " · " ++ bookmark.url
      | none => "收藏夹 · " ++ bookmark.url
    icon := ""
    score := score
    action_id := "bookmark" }

/-- The trailing web-search pseudo-result (commands.rs:226-239);
`i64::MIN` is the lowest possible score. -/
def searchResult (q : String) (counter : Nat) : SearchResult :=
  { id := "search-" ++ toString counter
    title := "在 Google 上搜索: " ++ q
    subtitle := "Google 搜索"
    icon := ""
    score := -9223372036854775808
    action_id := "search" }

/-- The application catalog snapshot taken by the query
(commands.rs:151-155): present only when the mode and the config allow it. -/
def includedApps (mode : Option String) (cfg : Config)
    (apps : List ApplicationInfo) : List ApplicationInfo :=
  if (QueryMode.from_option mode).allows_applications && cfg.enable_app_results then apps else []

/-- The bookmark catalog snapshot taken by the query (commands.rs:156-165). -/
def includedBookmarks (mode : Option String) (cfg : Config)
    (bms : List BookmarkEntry) : List BookmarkEntry :=
  if (QueryMode.from_option mode).allows_bookmarks && cfg.enable_bookmark_results then bms else []

/-- The merged candidate list built before ranking (commands.rs:136-216):
the optional URL pseudo-result, then matched applications, then matched
bookmarks, in enumeration order. `q` is the already-trimmed query text. -/
def candidates (m : Matcher) (q : String) (mode : Option String) (cfg : Config)
    (apps : List ApplicationInfo) (bms : List BookmarkEntry) : List SearchResult :=
  (if is_url_like q then [urlResult q] else [])
    ++ (includedApps mode cfg apps).filterMap
        (fun app => (match_application m app q).map (appResult app))
    ++ (includedBookmarks mode cfg bms).filterMap
        (fun bookmark => (match_bookmark m bookmark q).map (bmResult bookmark))

/-- Descending-score order used by `results.sort_by(|a, b| b.score.cmp(&a.score))`. -/
def scoreGe (a b : SearchResult) : Prop := b.score ≤ a.score

instance : DecidableRel scoreGe := fun a b => Int.decLe b.score a.score

instance : IsTotal SearchResult scoreGe := ⟨fun a b => le_total b.score a.score⟩

instance : IsTrans SearchResult scoreGe := ⟨fun _ _ _ h1 h2 => le_trans h2 h1⟩

/-- The stable descending sort of the candidates (commands.rs:218). -/
def ranked (m : Matcher) (q : String) (mode : Option String) (cfg : Config)
    (apps : List ApplicationInfo) (bms : List BookmarkEntry) : List SearchResult :=
  List.insertionSort scoreGe (candidates m q mode cfg apps bms)

/-- The truncation length (commands.rs:219-223): one slot is reserved when
the limit is reachable. -/
def truncLen (m : Matcher) (q : String) (mode : Option String) (cfg : Config)
    (apps : List ApplicationInfo) (bms : List BookmarkEntry) : Nat :=
  if 1 < resultLimit cfg ∧ resultLimit cfg ≤ (candidates m q mode cfg apps bms).length then
    resultLimit cfg - 1
  else resultLimit cfg

/-- The value of `counter` after the candidate loops: one increment per
pushed candidate (commands.rs:147,170,198). -/
def search_counter (m : Matcher) (q : String) (mode : Option String) (cfg : Config)
    (apps : List ApplicationInfo) (bms : List BookmarkEntry) : Nat :=
  (candidates m q mode cfg apps bms).length

/-- The result list returned for a non-empty query (commands.rs:218-240):
sort, truncate, then append the web-search pseudo-result when allowed. -/
def finalResults (m : Matcher) (q : String) (mode : Option String) (cfg : Config)
    (apps : List ApplicationInfo) (bms : List BookmarkEntry) : List SearchResult :=
  (ranked m q mode cfg apps bms).take (truncLen m q mode cfg apps bms)
    ++ (if (QueryMode.from_option mode).allows_web_search then
          [searchResult q (search_counter m q mode cfg apps bms)]
        else [])

/-- The id → `PendingAction` map built by a non-empty query
(commands.rs:134-231), with the external `urlencoding::encode` abstracted
as `urlenc`. -/
def builtPending (m : Matcher) (urlenc : String → String) (q : String)
    (mode : Option String) (cfg : Config)
    (apps : List ApplicationInfo) (bms : List BookmarkEntry) : PMap :=
  let p0 : PMap := pempty
  let p1 := if is_url_like q then pinsert p0 "url-0" (.url q) else p0
  let p2 :=
    ((includedApps mode cfg apps).filterMap
        (fun app => (match_application m app q).map (fun _ => app))).foldl
      (fun acc app => pinsert acc ("app-" ++ app.id) (.application app)) p1
  let p3 :=
    ((includedBookmarks mode cfg bms).filterMap
        (fun bookmark => (match_bookmark m bookmark q).map (fun _ => bookmark))).foldl
      (fun acc bookmark => pinsert acc ("bookmark-" ++ bookmark.id) (.bookmark bookmark)) p2
  if (QueryMode.from_option mode).allows_web_search then
    pinsert p3 ("search-" ++ toString (search_counter m q mode cfg apps bms))
      (.search ("https://google.com/search?q=" ++ urlenc q))
  else p3

/-- Embeds `submit_query` (commands.rs:102-255): empty/whitespace text returns
early; otherwise the results are computed and the shared pending-action
cache is cleared then refilled with this query's map. -/
def submit_query (m : Matcher) (urlenc : String → String) (query : String)
    (mode : Option String) (cfg : Config)
    (apps : List ApplicationInfo) (bms : List BookmarkEntry)
    (cache : PMap) : List SearchResult × PMap :=
  let trimmed := rsTrim query
  if trimmed = "" then ([], cache)
  else
    (finalResults m trimmed mode cfg apps bms,
     pextend (pclear cache) (builtPending m urlenc trimmed mode cfg apps bms))

/-! ## Action resolver (src-tauri/src/commands.rs:258-303) -/

/-- The launch primitives dispatched to by `execute_action`
(`launch_win32_app`, `launch_uwp_app`, `open_url`): external collaborators. -/
inductive LaunchEvent where
  | win32 (app : ApplicationInfo) (run_as_admin : Bool)
  | uwp (path : String)
  | openUrl (target : String)
deriving DecidableEq

/-- The state read and written by `execute_action`: the pending-action
cache and the saved input-method layout (state.rs:22,24). -/
structure ExecState where
  pending : PMap
  saved_ime : Option Int

/-- Which launch primitive a pending action dispatches to
(commands.rs:275-284). -/
def dispatch_of (action : PendingAction) (run_as_admin : Bool) : LaunchEvent :=
  match action with
  | .application app =>
    match app.app_type with
    | .win32 => .win32 app run_as_admin
    | .uwp => .uwp app.path
  | .bookmark entry => .openUrl entry.url
  | .url u => .openUrl u
  | .search u => .openUrl u

/-- Embeds `execute_action` (commands.rs:258-303). The launch primitives are
abstracted by `launch : LaunchEvent → Except String Unit`; the returned
pair is (outcome with the dispatched launch, the state afterwards). On
success the saved IME layout is restored (cleared); a cache miss returns
the "result expired" error before any dispatch, leaving the state as it
was. -/
def execute_action (launch : LaunchEvent → Except String Unit)
    (st : ExecState) (id : String) (run_as_admin : Bool) :
    Except String LaunchEvent × ExecState :=
  match st.pending id with
  | none => (.error "结果已失效，请重新搜索", st)
  | some action =>
    let ev := dispatch_of action run_as_admin
    match launch ev with
    | .error e => (.error e, st)
    | .ok _ => (.ok ev, { st with saved_ime := none })

/-! ## Application indexer (src-tauri/src/indexer.rs) -/

/-- The dedup key of `build_index` (indexer.rs:55-62): category tag plus
the ASCII-lowercased source path (falling back to the primary path). -/
def appKey (app : ApplicationInfo) : AppType × String :=
  (app.app_type, rsToLower (app.source_path.getD app.path))

/-- Embeds `results.retain(|app| seen.insert(key))` (indexer.rs:55-63): keep the
first occurrence of each key. -/
def dedupByKey : List ApplicationInfo → List (AppType × String) → List ApplicationInfo
  | [], _ => []
  | app :: rest, seen =>
    if appKey app ∈ seen then dedupByKey rest seen
    else app :: dedupByKey rest (appKey app :: seen)

/-- Case-insensitive display-name order used by the final sort
(indexer.rs:64). -/
def nameLe (a b : ApplicationInfo) : Prop :=
  strLe (rsToLower a.name) (rsToLower b.name)

instance : DecidableRel nameLe := fun a b =>
  instDecidableEqBool (rsLe (rsToLower a.name) (rsToLower b.name)) true

instance : IsTotal ApplicationInfo nameLe :=
  ⟨fun a b => strLe_total (rsToLower a.name) (rsToLower b.name)⟩

instance : IsTrans ApplicationInfo nameLe := ⟨fun _ _ _ => strLe_trans⟩

/-- Embeds `build_index` (indexer.rs:23-66), with the three per-source
enumerations (Start-menu shortcuts, registry entries, UWP apps — all
OS adapters) passed as parameters in their concatenation order:
concatenate, dedup by key keeping the first occurrence, sort by
lowercased display name. It takes no exclusion set and never fails. -/
def build_index (start_menu win32 uwp : List ApplicationInfo) : List ApplicationInfo :=
  List.insertionSort nameLe (dedupByKey (start_menu ++ win32 ++ uwp) [])

/-- Modelled from the spec: the keyword-expansion collaborator
`extend_keywords_with_pinyin` (src-tauri/src/text_utils.rs, not among the
sources) — "Keyword-expansion service: expand(keywords) -> keywords ∪
phonetic/locale variants"; the phonetic-variant generator is abstracted
as `variants`. -/
def extend_keywords_with_pinyin (variants : String → List String)
    (keywords : List String) : List String :=
  keywords ++ keywords.flatMap variants

/-- Embeds `keywords.sort(); keywords.dedup();` — stable sort then removal of
consecutive duplicates, as in the three indexer sites and the bookmark
walker. -/
def sortDedup (keywords : List String) : List String :=
  List.destutter (· ≠ ·) (List.insertionSort strLe keywords)

/-- The keyword pipeline of `shortcut_to_application` (indexer.rs:156-172):
name, resolved target, target file name, description; blanks dropped,
pinyin expansion, sort, dedup. `fileName` abstracts
`Path::new(target).file_name()`. -/
def shortcut_keywords (variants : String → List String)
    (fileName : String → Option String) (name : String)
    (display_target description : Option String) : List String :=
  let ks := [name]
    ++ (match display_target with
        | some target =>
          [target] ++ (match fileName target with
            | some f => [f]
            | none => [])
        | none => [])
    ++ (match description with
        | some d => [d]
        | none => [])
  let ks := ks.filter (fun v => ¬ rsTrim v = "")
  sortDedup (extend_keywords_with_pinyin variants ks)

/-- The keyword pipeline of `registry_entry_to_app` (indexer.rs:321-335):
display name, publisher, non-blank version; blanks dropped, pinyin
expansion, sort, dedup. -/
def registry_keywords (variants : String → List String) (display_name : String)
    (description version : Option String) : List String :=
  let ks := [display_name]
    ++ (match description with
        | some d => [d]
        | none => [])
    ++ (match version with
        | some v => if ¬ rsTrim v = "" then [v] else []
        | none => [])
  let ks := ks.filter (fun v => ¬ rsTrim v = "")
  sortDedup (extend_keywords_with_pinyin variants ks)

/-- The keyword pipeline of `enumerate_uwp_apps` (indexer.rs:447-468):
description, display name, app id, package name/family/full name; only
*empty* strings are dropped (`retain(|value| !value.is_empty())`, no
trim), pinyin expansion, sort, dedup. -/
def uwp_keywords (variants : String → List String) (description : Option String)
    (display_name app_id : String)
    (pkg_name pkg_family pkg_full : Option String) : List String :=
  let ks := (match description.filter (fun v => ¬ v = "") with
        | some d => [d]
        | none => [])
    ++ [display_name, app_id]
    ++ (match pkg_name with
        | some v => [v]
        | none => [])
    ++ (match pkg_family with
        | some v => [v]
        | none => [])
    ++ (match pkg_full with
        | some v => [v]
        | none => [])
  let ks := ks.filter (fun v => ¬ v = "")
  sortDedup (extend_keywords_with_pinyin variants ks)

/-! ## Bookmark indexer (src-tauri/src/bookmarks.rs) -/

/-- A node of the parsed Chrome `Bookmarks` JSON tree: the fields
`collect_node` reads (`type`, `name`, `url`, `guid`, `id`, `children`);
each is optional, as in the JSON. -/
inductive BNode where
  | node (ntype name url guid nid : Option String) (children : Option (List BNode))

/-- Embeds `is_supported_url` (bookmarks.rs:200). -/
def is_supported_url (url : String) : Bool :=
  rsStartsWith url "http://" || rsStartsWith url "https://"

/-- Embeds `root_display_label` (bookmarks.rs:184). -/
def root_display_label (key : String) : Option String :=
  if key = "bookmark_bar" then some "书签栏"
  else if key = "other" then some "其他书签"
  else if key = "synced" then some "已同步"
  else none

/-- Embeds `derive_bookmark_id` (bookmarks.rs:204), with the SHA1 hex digest of
`profile_label ++ url` abstracted as `contentHash`. -/
def derive_bookmark_id (contentHash : String → String → String)
    (profile_label : String) (guid nid : Option String) (url : String) : String :=
  match guid with
  | some g => profile_label ++ ":" ++ g
  | none =>
    match nid with
    | some i => profile_label ++ ":" ++ i
    | none => profile_label ++ ":" ++ contentHash profile_label url

/-- The keyword list of an emitted bookmark (bookmarks.rs:159-169): title,
url, folder path and its trimmed `/`-split segments, profile label;
blanks dropped, sort, dedup (no pinyin expansion here). -/
def bookmark_keywords (profile_label title url : String)
    (folder_path : Option String) : List String :=
  let ks := [title, url]
    ++ (match folder_path with
        | some folder => [folder] ++ (rsSplitChar folder '/').map rsTrim
        | none => [])
    ++ [profile_label]
  sortDedup (ks.filter (fun v => ¬ rsTrim v = ""))

/-- The folder branch's breadcrumb update (bookmarks.rs:116-124): push the
trimmed name when it is non-empty. -/
def folder_stack (path_stack : List String) (name : Option String) : List String :=
  match name with
  | some nm => if rsTrim nm = "" then path_stack else path_stack ++ [rsTrim nm]
  | none => path_stack

/-- The `"url"` arm of `collect_node` (bookmarks.rs:136-179): emit one
entry when title and url are non-blank and the scheme is http/https; the
folder path joins the current stack with `" / "` whenever the stack is
non-empty. -/
def collect_url_node (contentHash : String → String → String) (profile_label : String)
    (path_stack : List String) (name url guid nid : Option String) :
    List BookmarkEntry :=
  match name, url with
  | some rawTitle, some rawUrl =>
    let title := rsTrim rawTitle
    let u := rsTrim rawUrl
    if title = "" ∨ u = "" then []
    else if ¬ is_supported_url u then []
    else
      let folder_path :=
        if path_stack.isEmpty then none else some (joinSep " / " path_stack)
      [{ id := derive_bookmark_id contentHash profile_label guid nid u
         title := title
         url := u
         folder_path := folder_path
         keywords := bookmark_keywords profile_label title u folder_path }]
  | _, _ => []

mutual

/-- Embeds `collect_node` (bookmarks.rs:104-182): folders push their trimmed
non-empty name onto the breadcrumb stack and recurse over their children;
`url` nodes emit via `collect_url_node`; other node types emit nothing. -/
def collect_node (contentHash : String → String → String) (profile_label : String)
    (path_stack : List String) : BNode → List BookmarkEntry
  | .node ntype name url guid nid children =>
    if ntype.getD "" = "folder" then
      match children with
      | some cs =>
        collect_children contentHash profile_label (folder_stack path_stack name) cs
      | none => []
    else if ntype.getD "" = "url" then
      collect_url_node contentHash profile_label path_stack name url guid nid
    else []

/-- The child loop of `collect_node`, in iteration order. -/
def collect_children (contentHash : String → String → String) (profile_label : String)
    (path_stack : List String) : List BNode → List BookmarkEntry
  | [] => []
  | c :: cs =>
    collect_node contentHash profile_label path_stack c
      ++ collect_children contentHash profile_label path_stack cs

end

/-- Embeds `collect_entries_from_file` (bookmarks.rs:83-102): for each root the
stack starts with the profile label plus the root's display label when
recognised; roots with a `children` array contribute their children,
other roots are walked directly. -/
def collect_entries_from_file (contentHash : String → String → String)
    (roots : List (String × BNode)) (profile_label : String) : List BookmarkEntry :=
  roots.flatMap (fun kv =>
    let path_stack := [profile_label]
      ++ (match root_display_label kv.1 with
          | some label => [label]
          | none => [])
    match kv.2 with
    | .node _ _ _ _ _ (some cs) =>
      collect_children contentHash profile_label path_stack cs
    | n => collect_node contentHash profile_label path_stack n)

/-! ## Scoring lemmas -/

/-- Maximum of two optional scores (`none` = no match). -/
def obMax : Option Int → Option Int → Option Int
  | none, b => b
  | some a, none => some a
  | some a, some b => some (max a b)

/-- Best of a list of optional scores — this is the claim's reading of the
scoring rule ("the maximum of …, excluded when no field matches"). -/
def bestOf (opts : List (Option Int)) : Option Int :=
  opts.foldl obMax none

theorem optBetter_eq_obMax (best : Option Int) (s : Int) :
    optBetter best s = obMax best (some s) := by
  cases best with
  | none => rfl
  | some c =>
    by_cases h : c < s
    · simp [optBetter, obMax, h, max_eq_right h.le]
    · simp [optBetter, obMax, h, max_eq_left (not_lt.mp h)]

theorem obMax_none_right (a : Option Int) : obMax a none = a := by
  cases a <;> rfl

theorem obMax_assoc (a b c : Option Int) :
    obMax (obMax a b) c = obMax a (obMax b c) := by
  cases a <;> cases b <;> cases c <;> simp [obMax, max_assoc]

theorem foldl_obMax (l : List (Option Int)) :
    ∀ init, l.foldl obMax init = obMax init (bestOf l) := by
  induction l with
  | nil => intro init; exact (obMax_none_right init).symm
  | cons x l ih =>
    intro init
    have hx : bestOf (x :: l) = obMax x (bestOf l) := by
      show l.foldl obMax (obMax none x) = _
      exact ih x
    simp only [List.foldl_cons, ih (obMax init x), hx, obMax_assoc]

theorem bestOf_cons (x : Option Int) (l : List (Option Int)) :
    bestOf (x :: l) = obMax x (bestOf l) := by
  show l.foldl obMax (obMax none x) = _
  exact foldl_obMax l x

theorem obMax_eq_none {a b : Option Int} : obMax a b = none ↔ a = none ∧ b = none := by
  cases a <;> cases b <;> simp [obMax]

theorem bestOf_eq_none {l : List (Option Int)} : bestOf l = none ↔ ∀ o ∈ l, o = none := by
  induction l with
  | nil => simp [bestOf]
  | cons x l ih => simp [bestOf_cons, obMax_eq_none, ih]

theorem match_fold (m : Matcher) (q : String) (p : Int) (hm : m "" q = none) :
    ∀ (ks : List String) (init : Option Int),
      ks.foldl
        (fun best keyword =>
          if keyword = "" then best
          else
            match m keyword q with
            | none => best
            | some score => optBetter best (score - p))
        init
      = obMax init (bestOf (ks.map (fun k => (m k q).map (fun s => s - p)))) := by
  intro ks
  induction ks with
  | nil => intro init; exact (obMax_none_right init).symm
  | cons k ks ih =>
    intro init
    have hstep :
        (if k = "" then init
         else
           match m k q with
           | none => init
           | some score => optBetter init (score - p))
        = obMax init ((m k q).map (fun s => s - p)) := by
      by_cases hk : k = ""
      · simp [hk, hm, obMax_none_right]
      · simp only [hk, if_false]
        cases hmk : m k q with
        | none => simp [obMax_none_right]
        | some s => simp [optBetter_eq_obMax]
    simp only [List.foldl_cons, List.map_cons, hstep, ih, bestOf_cons, obMax_assoc]

theorem match_application_eq_bestOf (m : Matcher) (app : ApplicationInfo) (q : String)
    (hm : m "" q = none) :
    match_application m app q
      = bestOf (m app.name q
          :: app.keywords.map (fun k => (m k q).map (fun s => s - 5))) := by
  unfold match_application
  rw [match_fold m q 5 hm app.keywords (m app.name q), bestOf_cons]

theorem match_bookmark_eq_bestOf (m : Matcher) (bm : BookmarkEntry) (q : String)
    (hm : m "" q = none) :
    match_bookmark m bm q
      = bestOf (m bm.title q
          :: (match bm.folder_path with
              | some path => (m path q).map (fun s => s - 5)
              | none => none)
          :: (m bm.url q).map (fun s => s - 8)
          :: bm.keywords.map (fun k => (m k q).map (fun s => s - 8))) := by
  unfold match_bookmark
  rw [match_fold m q 8 hm]
  have hfold :
      (match bm.folder_path with
        | some path =>
          match m path q with
          | none => m bm.title q
          | some score => optBetter (m bm.title q) (score - 5)
        | none => m bm.title q)
      = obMax (m bm.title q)
          (match bm.folder_path with
            | some path => (m path q).map (fun s => s - 5)
            | none => none) := by
    cases bm.folder_path with
    | none => simp [obMax_none_right]
    | some path =>
      cases hmp : m path q with
      | none => simp [hmp, obMax_none_right]
      | some s => simp [hmp, optBetter_eq_obMax]
  rw [hfold]
  have hurl : ∀ b : Option Int,
      (match (m bm.url q).map (fun v => v - 8) with
        | none => b
        | some score => optBetter b score)
      = obMax b ((m bm.url q).map (fun s => s - 8)) := by
    intro b
    cases hmu : m bm.url q with
    | none => simp [hmu, obMax_none_right]
    | some s => simp [hmu, optBetter_eq_obMax]
  rw [hurl]
  simp only [bestOf_cons, obMax_assoc]

/-! ## Shared concrete fixtures for witnesses and counterexamples -/

/-- Identity URL-encoder stand-in (the encoded value is never inspected). -/
def uencW : String → String := fun s => s

/-- A matcher that scores only an exact hit on the query `"ab"`. -/
def mW : Matcher := fun choice query =>
  if query = "ab" ∧ choice = "ab" then some 100 else none

/-- A matcher that never matches. -/
def mNone : Matcher := fun _ _ => none

/-- A matcher that scores every field 300 (above the URL pseudo-score). -/
def m300 : Matcher := fun _ _ => some 300

/-- A matcher that scores every field 50. -/
def m50 : Matcher := fun _ _ => some 50

/-- A trivial application entry with the given id and name. -/
def mkApp (s : String) : ApplicationInfo :=
  { id := s, name := s, path := "p", source_path := none, app_type := .win32,
    icon_b64 := "", description := none, keywords := [] }

/-- Ten distinct application entries. -/
def apps10 : List ApplicationInfo :=
  ["0", "1", "2", "3", "4", "5", "6", "7", "8", "9"].map mkApp

/-- A config with the minimum limit, applications on, bookmarks off. -/
def cfgA : Config := ⟨10, true, false⟩

/-- A config with the minimum limit and both catalogs on. -/
def cfgB : Config := ⟨10, true, true⟩

/-- An application entry for the C6 witness. -/
def appW : ApplicationInfo :=
  { id := "a", name := "ab", path := "p", source_path := none, app_type := .win32,
    icon_b64 := "", description := none, keywords := ["x", "ab"] }

/-- A bookmark entry for the C6 witness. -/
def bmW : BookmarkEntry :=
  { id := "b", title := "t", url := "https://x.y", folder_path := some "f",
    keywords := ["k"] }

/-- A registry-derived entry whose effective path is the excluded system
tool `C:\Windows\System32\calc.exe`. -/
def calcEntry : ApplicationInfo :=
  { id := "win32:installed:sub:calc", name := "Calculator",
    path := "C:\\Windows\\System32\\calc.exe", source_path := none,
    app_type := .win32, icon_b64 := "", description := none, keywords := [] }

/-- A Start-menu shortcut entry resolving to `C:\Foo\foo.exe`. -/
def smEntry : ApplicationInfo :=
  { id := "win32:startmenu:c:\\sm\\foo.lnk", name := "Foo", path := "C:\\sm\\Foo.lnk",
    source_path := some "C:\\Foo\\foo.exe", app_type := .win32, icon_b64 := "",
    description := none, keywords := [] }

/-- A registry entry resolving to the same executable as `smEntry`,
differing only in path case. -/
def regEntry : ApplicationInfo :=
  { id := "win32:installed:key:foo", name := "Foo", path := "c:\\foo\\FOO.EXE",
    source_path := some "c:\\foo\\FOO.EXE", app_type := .win32, icon_b64 := "",
    description := none, keywords := [] }

/-- A root-level bookmark node (`type: "url"`) with a GUID. -/
def urlNodeW : BNode :=
  .node (some "url") (some "T") (some "https://x.y") (some "g") none none

/-- A constant stand-in for the SHA1 content hash. -/
def cH0 : String → String → String := fun _ _ => "h"

/-! ## Claims -/

/-- Claim C1: the claim says `build_index` takes a caller-supplied
exclusion set and drops any entry whose effective path matches it
case-insensitively. The code's `build_index` (indexer.rs:23) takes no
exclusion parameter and performs no such filtering (even though its
caller, commands.rs:317, passes `config.system_tool_exclusions` to it):
with the exclusion set `{"c:\windows\system32\calc.exe"}`, the entry for
`C:\Windows\System32\calc.exe` — whose dedup-key path is exactly the
excluded string — survives indexing. -/
theorem c1_exclusions_not_applied :
    calcEntry ∈ build_index [] [calcEntry] []
      ∧ (appKey calcEntry).2 ∈ ["c:\\windows\\system32\\calc.exe"] := by
  decide

/-- Claim C6: an application candidate scores the maximum of match(name)
and match(keyword) − 5 over its keywords, and is excluded when no field
matches; a bookmark candidate scores the maximum of match(title),
match(folder path) − 5, match(URL) − 8 and match(keyword) − 8 over its
keywords, and is excluded when nothing matches. (The hypothesis
`m "" q = none` records that the fuzzy matcher cannot match a non-empty
query inside an empty field, which is how the code's skip of empty
keywords coincides with the plain maximum.) -/
theorem c6_scoring_rule (m : Matcher) (app : ApplicationInfo) (bm : BookmarkEntry)
    (q : String) (hm : m "" q = none) :
    (match_application m app q
        = bestOf (m app.name q
            :: app.keywords.map (fun k => (m k q).map (fun s => s - 5)))
      ∧ (match_application m app q = none ↔
          m app.name q = none ∧ ∀ k ∈ app.keywords, m k q = none))
    ∧ (match_bookmark m bm q
        = bestOf (m bm.title q
            :: (match bm.folder_path with
                | some path => (m path q).map (fun s => s - 5)
                | none => none)
            :: (m bm.url q).map (fun s => s - 8)
            :: bm.keywords.map (fun k => (m k q).map (fun s => s - 8)))
      ∧ (match_bookmark m bm q = none ↔
          m bm.title q = none
          ∧ (∀ path, bm.folder_path = some path → m path q = none)
          ∧ m bm.url q = none
          ∧ ∀ k ∈ bm.keywords, m k q = none)) := by
  have happ := match_application_eq_bestOf m app q hm
  have hbm := match_bookmark_eq_bestOf m bm q hm
  refine ⟨⟨happ, ?_⟩, hbm, ?_⟩
  · rw [happ, bestOf_eq_none]
    simp [Option.map_eq_none']
  · rw [hbm, bestOf_eq_none]
    cases hfp : bm.folder_path with
    | none => simp [Option.map_eq_none']
    | some path => simp [Option.map_eq_none']

/-- Witness for C6 at a concrete matcher, application and bookmark. -/
theorem c6_scoring_rule_witness :
    match_application mW appW "ab"
      = bestOf (mW appW.name "ab"
          :: appW.keywords.map (fun k => (mW k "ab").map (fun s => s - 5))) :=
  (c6_scoring_rule mW appW bmW "ab" (by decide)).1.1

/-- Claim C9: a query whose text is empty or whitespace-only returns an
empty result list, leaves the pending-action cache untouched, and its
output does not depend on either catalog (it never reads them). -/
theorem c9_empty_query_is_noop (m : Matcher) (urlenc : String → String)
    (query : String) (mode : Option String) (cfg : Config)
    (apps : List ApplicationInfo) (bms : List BookmarkEntry) (cache : PMap)
    (h : rsTrim query = "") :
    submit_query m urlenc query mode cfg apps bms cache = ([], cache)
    ∧ ∀ (apps' : List ApplicationInfo) (bms' : List BookmarkEntry),
        submit_query m urlenc query mode cfg apps' bms' cache
          = submit_query m urlenc query mode cfg apps bms cache := by
  constructor
  · simp [submit_query, h]
  · intro apps' bms'
    simp [submit_query, h]

/-- Witness for C9 at the whitespace-only query `" "`. -/
theorem c9_empty_query_is_noop_witness :
    submit_query mW uencW " " none cfgB [] [] pempty = ([], pempty) :=
  (c9_empty_query_is_noop mW uencW " " none cfgB [] [] pempty (by decide)).1

/-- Claim C3: after any non-empty-text query the shared pending-action
cache holds exactly the id → action map built by that query (cleared then
refilled), independently of what the cache held before — so an id absent
from the new map no longer resolves. -/
theorem c3_pending_cache_replaced (m : Matcher) (urlenc : String → String)
    (query : String) (mode : Option String) (cfg : Config)
    (apps : List ApplicationInfo) (bms : List BookmarkEntry) (cache : PMap)
    (h : ¬ rsTrim query = "") :
    (∀ x, (submit_query m urlenc query mode cfg apps bms cache).2 x
        = builtPending m urlenc (rsTrim query) mode cfg apps bms x)
    ∧ ∀ (cache' : PMap) (x : String),
        (submit_query m urlenc query mode cfg apps bms cache).2 x
          = (submit_query m urlenc query mode cfg apps bms cache').2 x := by
  have key : ∀ (c : PMap) (x : String),
      (submit_query m urlenc query mode cfg apps bms c).2 x
        = builtPending m urlenc (rsTrim query) mode cfg apps bms x := by
    intro c x
    unfold submit_query
    simp only [h, if_false]
    show pextend (pclear c) (builtPending m urlenc (rsTrim query) mode cfg apps bms) x = _
    unfold pextend pclear
    cases hb : builtPending m urlenc (rsTrim query) mode cfg apps bms x <;> simp [hb]
  exact ⟨key cache, fun cache' x => (key cache x).trans (key cache' x).symm⟩

/-- Witness for C3 at the concrete query `"ab"` and the id `"url-0"`. -/
theorem c3_pending_cache_replaced_witness :
    (submit_query mW uencW "ab" none cfgB [appW] [bmW] pempty).2 "url-0"
      = builtPending mW uencW (rsTrim "ab") none cfgB [appW] [bmW] "url-0" :=
  (c3_pending_cache_replaced mW uencW "ab" none cfgB [appW] [bmW] pempty
    (by decide)).1 "url-0"

/-- Claim C4: executing an action whose id is not in the current
pending-action cache reports the "result expired" error, dispatches no
launch, and leaves the state exactly as it was. -/
theorem c4_expired_result_id (launch : LaunchEvent → Except String Unit)
    (st : ExecState) (id : String) (run_as_admin : Bool)
    (h : st.pending id = none) :
    execute_action launch st id run_as_admin
      = (.error "结果已失效，请重新搜索", st) := by
  unfold execute_action
  rw [h]

/-- Witness for C4 at an empty cache and the id `"app-x"`. -/
theorem c4_expired_result_id_witness :
    execute_action (fun _ => .ok ()) ⟨pempty, some 3⟩ "app-x" false
      = (.error "结果已失效，请重新搜索", (⟨pempty, some 3⟩ : ExecState)) :=
  c4_expired_result_id (fun _ => .ok ()) ⟨pempty, some 3⟩ "app-x" false rfl

/-! ## Result-limit and truncation lemmas -/

theorem resultLimit_ge_ten (cfg : Config) : 10 ≤ resultLimit cfg := by
  have h2 : 10 ≤ min 60 (max 10 cfg.max_results) :=
    le_min (by omega) (le_max_left 10 cfg.max_results)
  unfold resultLimit
  dsimp only
  split
  · omega
  · exact h2

theorem ranked_length (m : Matcher) (q : String) (mode : Option String) (cfg : Config)
    (apps : List ApplicationInfo) (bms : List BookmarkEntry) :
    (ranked m q mode cfg apps bms).length = (candidates m q mode cfg apps bms).length :=
  List.length_insertionSort scoreGe (candidates m q mode cfg apps bms)

theorem submit_query_results_eq (m : Matcher) (urlenc : String → String)
    (query : String) (mode : Option String) (cfg : Config)
    (apps : List ApplicationInfo) (bms : List BookmarkEntry) (cache : PMap)
    (h : ¬ rsTrim query = "") :
    (submit_query m urlenc query mode cfg apps bms cache).1
      = finalResults m (rsTrim query) mode cfg apps bms := by
  unfold submit_query
  simp only [h, if_false]

/-- Claim C2: when the merged candidate list reaches the configured limit
`L`, the ranked list is truncated to `L − 1` and the web-search
pseudo-result is appended afterwards, so the returned list has exactly
`L` entries when the mode allows web search and `L − 1` otherwise, and
never more than `L`. -/
theorem c2_reserved_slot_truncation (m : Matcher) (urlenc : String → String)
    (query : String) (mode : Option String) (cfg : Config)
    (apps : List ApplicationInfo) (bms : List BookmarkEntry) (cache : PMap)
    (h1 : ¬ rsTrim query = "")
    (h2 : resultLimit cfg ≤ (candidates m (rsTrim query) mode cfg apps bms).length) :
    ((ranked m (rsTrim query) mode cfg apps bms).take
        (truncLen m (rsTrim query) mode cfg apps bms)).length = resultLimit cfg - 1
    ∧ ((QueryMode.from_option mode).allows_web_search = true →
        (submit_query m urlenc query mode cfg apps bms cache).1.length = resultLimit cfg)
    ∧ ((QueryMode.from_option mode).allows_web_search = false →
        (submit_query m urlenc query mode cfg apps bms cache).1.length
          = resultLimit cfg - 1)
    ∧ (submit_query m urlenc query mode cfg apps bms cache).1.length
        ≤ resultLimit cfg := by
  have hL : 10 ≤ resultLimit cfg := resultLimit_ge_ten cfg
  have htrunc : truncLen m (rsTrim query) mode cfg apps bms = resultLimit cfg - 1 := by
    unfold truncLen
    rw [if_pos ⟨by omega, h2⟩]
  have htake : ((ranked m (rsTrim query) mode cfg apps bms).take
      (truncLen m (rsTrim query) mode cfg apps bms)).length = resultLimit cfg - 1 := by
    rw [List.length_take, htrunc, ranked_length]
    omega
  have hres := submit_query_results_eq m urlenc query mode cfg apps bms cache h1
  refine ⟨htake, ?_, ?_, ?_⟩
  · intro hws
    rw [hres]
    unfold finalResults
    rw [List.length_append, htake, hws]
    simp only [if_true, List.length_singleton]
    omega
  · intro hws
    rw [hres]
    unfold finalResults
    rw [List.length_append, htake, hws]
    simp
  · rw [hres]
    unfold finalResults
    rw [List.length_append, htake]
    cases (QueryMode.from_option mode).allows_web_search
    · simp
    · simp
      omega

/-- Witness for C2: ten candidates at limit 10, in All mode — exactly 10
results come back. -/
theorem c2_reserved_slot_truncation_witness :
    (submit_query m50 uencW "zz" none cfgA apps10 [] pempty).1.length = resultLimit cfgA :=
  (c2_reserved_slot_truncation m50 uencW "zz" none cfgA apps10 [] pempty
    (by decide) (by decide)).2.1 rfl

/-! ## Position of a sorted element under truncation (for C7) -/

theorem mem_take_of_sorted_count {l : List SearchResult} {x : SearchResult} {n : Nat}
    {s : Int} (hscore : x.score = s) (hs : l.Pairwise scoreGe) (hx : x ∈ l)
    (hc : l.countP (fun r => decide (s ≤ r.score)) ≤ n) : x ∈ l.take n := by
  by_contra hnot
  have hsplit : l.take n ++ l.drop n = l := List.take_append_drop n l
  have hxdrop : x ∈ l.drop n := by
    have hx' : x ∈ l.take n ++ l.drop n := by rw [hsplit]; exact hx
    rcases List.mem_append.mp hx' with h | h
    · exact absurd h hnot
    · exact h
  have hdn : n < l.length := by
    by_contra hle
    rw [List.drop_eq_nil_of_le (by omega)] at hxdrop
    exact absurd hxdrop (List.not_mem_nil x)
  have hpw : List.Pairwise scoreGe (l.take n ++ l.drop n) := by rw [hsplit]; exact hs
  have hcross := (List.pairwise_append.mp hpw).2.2
  have htakeall : (l.take n).countP (fun r => decide (s ≤ r.score))
      = (l.take n).length := by
    apply List.countP_eq_length.mpr
    intro a ha
    have hxa : x.score ≤ a.score := hcross a ha x hxdrop
    simp only [decide_eq_true_eq]
    omega
  have hdroppos : 0 < (l.drop n).countP (fun r => decide (s ≤ r.score)) :=
    List.countP_pos_iff.mpr ⟨x, hxdrop, by rw [← hscore]; simp⟩
  have hcount : l.countP (fun r => decide (s ≤ r.score))
      = (l.take n).countP (fun r => decide (s ≤ r.score))
        + (l.drop n).countP (fun r => decide (s ≤ r.score)) := by
    conv_lhs => rw [← hsplit]
    exact List.countP_append _ _ _
  have hlen : (l.take n).length = n := by
    rw [List.length_take]
    omega
  omega

/-- Claim C7 (amended): a URL-looking query always adds the URL-open
pseudo-result to the candidate list before ranking, independently of the
mode filter; it appears in the returned list whenever the number of
candidates scoring at least its fixed score 200 fits into the truncation
length (the original claim omitted that truncation can push it out). -/
theorem c7_url_pseudo_result (m : Matcher) (urlenc : String → String)
    (query : String) (mode : Option String) (cfg : Config)
    (apps : List ApplicationInfo) (bms : List BookmarkEntry) (cache : PMap)
    (h1 : ¬ rsTrim query = "") (h2 : is_url_like (rsTrim query) = true)
    (h3 : (candidates m (rsTrim query) mode cfg apps bms).countP
        (fun r => decide ((200 : Int) ≤ r.score))
      ≤ truncLen m (rsTrim query) mode cfg apps bms) :
    urlResult (rsTrim query) ∈ candidates m (rsTrim query) mode cfg apps bms
    ∧ urlResult (rsTrim query) ∈ (submit_query m urlenc query mode cfg apps bms cache).1 := by
  have hmem : urlResult (rsTrim query) ∈ candidates m (rsTrim query) mode cfg apps bms := by
    unfold candidates
    rw [if_pos h2]
    exact List.mem_append.mpr (Or.inl (List.mem_append.mpr (Or.inl (List.mem_singleton.mpr rfl))))
  refine ⟨hmem, ?_⟩
  rw [submit_query_results_eq m urlenc query mode cfg apps bms cache h1]
  unfold finalResults
  apply List.mem_append.mpr
  left
  have hperm : List.Perm (ranked m (rsTrim query) mode cfg apps bms)
      (candidates m (rsTrim query) mode cfg apps bms) :=
    List.perm_insertionSort scoreGe _
  apply mem_take_of_sorted_count (s := 200) rfl
  · exact List.sorted_insertionSort scoreGe _
  · exact hperm.mem_iff.mpr hmem
  · rw [hperm.countP_eq]
    exact h3

/-- Witness for C7: the query `"a.b"` with no matching candidates — the
URL pseudo-result is returned. -/
theorem c7_url_pseudo_result_witness :
    urlResult (rsTrim "a.b") ∈ (submit_query mNone uencW "a.b" none cfgB [] [] pempty).1 :=
  (c7_url_pseudo_result mNone uencW "a.b" none cfgB [] [] pempty
    (by decide) (by decide) (by decide)).2

/-- Counterexample for C7 as stated: with the URL-looking query `"a.b"`,
a limit of 10 and ten applications that all outscore the fixed URL score
(300 > 200), truncation to 9 drops the URL pseudo-result, so no returned
result is the URL-open entry even though `is_url_like` holds. -/
theorem c7_url_pseudo_result_cex :
    is_url_like (rsTrim "a.b") = true
    ∧ ∀ r ∈ (submit_query m300 uencW "a.b" none cfgA apps10 [] pempty).1,
        r.action_id ≠ "url" := by
  decide

/-! ## Dedup lemmas (for C5) -/

theorem dedupByKey_mem : ∀ {l : List ApplicationInfo} {seen : List (AppType × String)}
    {a : ApplicationInfo}, a ∈ dedupByKey l seen → a ∈ l := by
  intro l
  induction l with
  | nil => intro seen a h; simp [dedupByKey] at h
  | cons b rest ih =>
    intro seen a h
    unfold dedupByKey at h
    by_cases hb : appKey b ∈ seen
    · rw [if_pos hb] at h
      exact List.mem_cons_of_mem b (ih h)
    · rw [if_neg hb] at h
      rcases List.mem_cons.mp h with h | h
      · exact h ▸ List.mem_cons_self b rest
      · exact List.mem_cons_of_mem b (ih h)

theorem dedupByKey_not_seen : ∀ {l : List ApplicationInfo} {seen : List (AppType × String)}
    {a : ApplicationInfo}, a ∈ dedupByKey l seen → appKey a ∉ seen := by
  intro l
  induction l with
  | nil => intro seen a h; simp [dedupByKey] at h
  | cons b rest ih =>
    intro seen a h
    unfold dedupByKey at h
    by_cases hb : appKey b ∈ seen
    · rw [if_pos hb] at h
      exact ih h
    · rw [if_neg hb] at h
      rcases List.mem_cons.mp h with h | h
      · exact h ▸ hb
      · intro hmem
        exact ih h (List.mem_cons_of_mem _ hmem)

theorem dedupByKey_pairwise : ∀ (l : List ApplicationInfo) (seen : List (AppType × String)),
    (dedupByKey l seen).Pairwise (fun a b => appKey a ≠ appKey b) := by
  intro l
  induction l with
  | nil => intro seen; simp [dedupByKey]
  | cons b rest ih =>
    intro seen
    unfold dedupByKey
    by_cases hb : appKey b ∈ seen
    · rw [if_pos hb]
      exact ih seen
    · rw [if_neg hb]
      refine List.pairwise_cons.mpr ⟨?_, ih _⟩
      intro a ha hkey
      exact dedupByKey_not_seen ha (hkey ▸ List.mem_cons_self _ _)

theorem dedupByKey_keeps_first : ∀ {l : List ApplicationInfo}
    {seen : List (AppType × String)} {k : AppType × String} {e : ApplicationInfo},
    l.find? (fun a => decide (appKey a = k)) = some e → k ∉ seen →
    e ∈ dedupByKey l seen := by
  intro l
  induction l with
  | nil => intro seen k e h _; simp at h
  | cons b rest ih =>
    intro seen k e hfind hk
    rw [List.find?_cons] at hfind
    unfold dedupByKey
    by_cases hb : appKey b = k
    · have hfind' : b = e := by simpa [hb] using hfind
      subst hfind'
      rw [if_neg (by rw [hb]; exact hk)]
      exact List.mem_cons_self _ _
    · have hfind' : List.find? (fun a => decide (appKey a = k)) rest = some e := by
        simpa [hb] using hfind
      by_cases hbseen : appKey b ∈ seen
      · rw [if_pos hbseen]
        exact ih hfind' hk
      · rw [if_neg hbseen]
        refine List.mem_cons_of_mem b (ih hfind' ?_)
        intro hmem
        rcases List.mem_cons.mp hmem with h | h
        · exact hb h.symm
        · exact hk h

/-- The relation "distinct dedup keys" is symmetric. -/
theorem appKey_ne_symm : Symmetric (fun a b : ApplicationInfo => appKey a ≠ appKey b) :=
  fun _ _ h he => h he.symm

/-- Claim C5: no two catalog entries share a dedup key; on a key conflict
the first-enumerated entry is kept, and since Start-menu shortcuts come
before registry entries, a registry entry whose key collides with a
shortcut-derived entry is dropped and the surviving entry with that key
is shortcut-derived. -/
theorem c5_dedup_first_wins (start_menu win32 uwp : List ApplicationInfo) :
    (build_index start_menu win32 uwp).Pairwise (fun a b => appKey a ≠ appKey b)
    ∧ (∀ r, r ∈ win32 → r ∉ start_menu →
        (∃ s, s ∈ start_menu ∧ appKey s = appKey r) →
        r ∉ build_index start_menu win32 uwp)
    ∧ (∀ r, r ∈ win32 →
        (∃ s, s ∈ start_menu ∧ appKey s = appKey r) →
        ∃ e, e ∈ start_menu ∧ e ∈ build_index start_menu win32 uwp
          ∧ appKey e = appKey r) := by
  have hperm : List.Perm (build_index start_menu win32 uwp)
      (dedupByKey (start_menu ++ win32 ++ uwp) []) :=
    List.perm_insertionSort nameLe _
  have hpair : (build_index start_menu win32 uwp).Pairwise
      (fun a b => appKey a ≠ appKey b) :=
    (List.Perm.pairwise_iff (fun h he => h he.symm) hperm).mpr
      (dedupByKey_pairwise (start_menu ++ win32 ++ uwp) [])
  have keep : ∀ r, r ∈ win32 →
      (∃ s, s ∈ start_menu ∧ appKey s = appKey r) →
      ∃ e, e ∈ start_menu ∧ e ∈ build_index start_menu win32 uwp
        ∧ appKey e = appKey r := by
    intro r _ ⟨s, hs, hkey⟩
    have hsome : ((start_menu).find? (fun a => decide (appKey a = appKey r))).isSome := by
      rw [List.find?_isSome]
      exact ⟨s, hs, by simp [hkey]⟩
    obtain ⟨e, he⟩ := Option.isSome_iff_exists.mp hsome
    have hesm : e ∈ start_menu := List.mem_of_find?_eq_some he
    have hekey : appKey e = appKey r := by
      have := List.find?_some he
      simpa using this
    have hconcat : (start_menu ++ (win32 ++ uwp)).find?
        (fun a => decide (appKey a = appKey r)) = some e := by
      rw [List.find?_append, he, Option.or_some]
    have hed : e ∈ dedupByKey (start_menu ++ win32 ++ uwp) [] := by
      have := @dedupByKey_keeps_first (start_menu ++ (win32 ++ uwp)) [] _ _
        hconcat (List.not_mem_nil _)
      simpa [List.append_assoc] using this
    exact ⟨e, hesm, hperm.mem_iff.mpr hed, hekey⟩
  refine ⟨hpair, ?_, keep⟩
  intro r hr hrnot hex
  intro hrmem
  obtain ⟨e, hesm, hebuild, hekey⟩ := keep r hr hex
  by_cases hre : r = e
  · exact hrnot (hre ▸ hesm)
  · exact (List.Pairwise.forall appKey_ne_symm hpair hrmem hebuild hre) hekey.symm

/-- Witness for C5: a registry entry resolving to the same executable as a
Start-menu shortcut (case-insensitively) is not in the built catalog. -/
theorem c5_dedup_first_wins_witness :
    regEntry ∉ build_index [smEntry] [regEntry] [] :=
  (c5_dedup_first_wins [smEntry] [regEntry] []).2.1 regEntry
    (by decide) (by decide) ⟨smEntry, by decide, by decide⟩

/-! ## Sort-dedup lemmas (for C10 and the bookmark walker) -/

/-- Strict version of the string order. -/
def strLt (a b : String) : Prop := strLe a b ∧ a ≠ b

instance : IsTrans String strLt :=
  ⟨fun a b c hab hbc => by
    refine ⟨strLe_trans hab.1 hbc.1, ?_⟩
    intro hac
    subst hac
    exact hbc.2 (strLe_antisymm hbc.1 hab.1)⟩

theorem chain'_strLt : ∀ (l : List String),
    l.Pairwise strLe → l.Chain' (· ≠ ·) → l.Chain' strLt
  | [], _, _ => List.chain'_nil
  | [a], _, _ => List.chain'_singleton a
  | a :: b :: t, hp, hc => by
    rw [List.chain'_cons] at hc ⊢
    have hp' := List.pairwise_cons.mp hp
    exact ⟨⟨hp'.1 b (List.mem_cons_self _ _), hc.1⟩,
      chain'_strLt (b :: t) hp'.2 hc.2⟩

theorem sortDedup_nodup (l : List String) : (sortDedup l).Nodup := by
  have hsorted : (List.insertionSort strLe l).Pairwise strLe :=
    List.sorted_insertionSort strLe l
  have hsub : (sortDedup l).Sublist (List.insertionSort strLe l) :=
    List.destutter_sublist _ _
  have hps : (sortDedup l).Pairwise strLe := List.Pairwise.sublist hsub hsorted
  have hch : (sortDedup l).Chain' (· ≠ ·) := List.destutter_is_chain' _ _
  have hplt : (sortDedup l).Pairwise strLt :=
    List.chain'_iff_pairwise.mp (chain'_strLt _ hps hch)
  exact List.Pairwise.imp (fun h => h.2) hplt

theorem sortDedup_subset {l : List String} {k : String} (h : k ∈ sortDedup l) : k ∈ l :=
  (List.perm_insertionSort strLe l).mem_iff.mp ((List.destutter_sublist _ _).subset h)

theorem rsTrim_empty : rsTrim "" = "" := rfl

theorem mem_extend_keywords {variants : String → List String} {ks : List String}
    {k : String} (h : k ∈ extend_keywords_with_pinyin variants ks) :
    k ∈ ks ∨ ∃ s, s ∈ ks ∧ k ∈ variants s := by
  rcases List.mem_append.mp h with h | h
  · exact Or.inl h
  · rcases List.mem_flatMap.mp h with ⟨s, hs, hv⟩
    exact Or.inr ⟨s, hs, hv⟩

/-- The common shortcut/registry pipeline: filter blanks, expand, sort,
dedup — duplicate-free and blank-free provided the expansion emits no
blank variants. -/
theorem keywords_pipeline_ok {variants : String → List String}
    (hv : ∀ s, ∀ v ∈ variants s, ¬ rsTrim v = "") (base : List String) :
    (sortDedup (extend_keywords_with_pinyin variants
        (base.filter (fun v => ¬ rsTrim v = "")))).Nodup
    ∧ ∀ k ∈ sortDedup (extend_keywords_with_pinyin variants
        (base.filter (fun v => ¬ rsTrim v = ""))), ¬ rsTrim k = "" := by
  refine ⟨sortDedup_nodup _, ?_⟩
  intro k hk
  rcases mem_extend_keywords (sortDedup_subset hk) with h | ⟨s, _, hvk⟩
  · have := (List.mem_filter.mp h).2
    simpa using this
  · exact hv s k hvk

/-- The UWP pipeline: only empty strings are filtered, so the guarantee is
only emptiness-freedom (given non-empty variants). -/
theorem keywords_pipeline_nonempty {variants : String → List String}
    (hv : ∀ s, ∀ v ∈ variants s, ¬ v = "") (base : List String) :
    (sortDedup (extend_keywords_with_pinyin variants
        (base.filter (fun v => ¬ v = "")))).Nodup
    ∧ ∀ k ∈ sortDedup (extend_keywords_with_pinyin variants
        (base.filter (fun v => ¬ v = ""))), ¬ k = "" := by
  refine ⟨sortDedup_nodup _, ?_⟩
  intro k hk
  rcases mem_extend_keywords (sortDedup_subset hk) with h | ⟨s, _, hvk⟩
  · have := (List.mem_filter.mp h).2
    simpa using this
  · exact hv s k hvk

theorem bookmark_keywords_ok (profile_label title url : String)
    (folder_path : Option String) :
    (bookmark_keywords profile_label title url folder_path).Nodup
    ∧ ∀ k ∈ bookmark_keywords profile_label title url folder_path,
        ¬ rsTrim k = "" := by
  refine ⟨sortDedup_nodup _, ?_⟩
  intro k hk
  have h := sortDedup_subset hk
  have := (List.mem_filter.mp h).2
  simpa using this

/-! ## Bookmark walker invariant (for C8 and C10) -/

/-- The folder-branch breadcrumb update keeps the stack's head. -/
theorem folder_stack_cons (profile : String) (rest : List String)
    (name : Option String) :
    ∃ rest', folder_stack (profile :: rest) name = profile :: rest' := by
  cases name with
  | none => exact ⟨rest, rfl⟩
  | some nm =>
    by_cases h : rsTrim nm = ""
    · exact ⟨rest, by simp [folder_stack, h]⟩
    · exact ⟨rest ++ [rsTrim nm], by simp [folder_stack, h]⟩

theorem collect_url_node_inv (cH : String → String → String) (profile : String)
    (rest : List String) (name url guid nid : Option String) (e : BookmarkEntry)
    (he : e ∈ collect_url_node cH profile (profile :: rest) name url guid nid) :
    (∃ tail, e.folder_path = some (joinSep " / " (profile :: tail)))
    ∧ e.keywords.Nodup ∧ ∀ k ∈ e.keywords, ¬ rsTrim k = "" := by
  unfold collect_url_node at he
  rcases name with _ | rawTitle
  · simp at he
  rcases url with _ | rawUrl
  · simp at he
  simp only at he
  by_cases h1 : rsTrim rawTitle = "" ∨ rsTrim rawUrl = ""
  · rw [if_pos h1] at he
    simp at he
  rw [if_neg h1] at he
  by_cases h2 : ¬ is_supported_url (rsTrim rawUrl) = true
  · rw [if_pos h2] at he
    simp at he
  rw [if_neg h2] at he
  have hempty : (profile :: rest).isEmpty = false := rfl
  rw [hempty] at he
  simp only [Bool.false_eq_true, if_false, List.mem_singleton] at he
  subst he
  refine ⟨⟨rest, rfl⟩, ?_⟩
  exact bookmark_keywords_ok profile (rsTrim rawTitle) (rsTrim rawUrl)
    (some (joinSep " / " (profile :: rest)))

mutual

theorem collect_node_inv (cH : String → String → String) (profile : String) :
    ∀ (n : BNode) (rest : List String) (e : BookmarkEntry),
      e ∈ collect_node cH profile (profile :: rest) n →
      (∃ tail, e.folder_path = some (joinSep " / " (profile :: tail)))
      ∧ e.keywords.Nodup ∧ ∀ k ∈ e.keywords, ¬ rsTrim k = ""
  | .node ntype name url guid nid children, rest, e => by
    intro he
    unfold collect_node at he
    by_cases hf : ntype.getD "" = "folder"
    · rw [if_pos hf] at he
      cases children with
      | none => simp at he
      | some cs =>
        obtain ⟨rest', hrest'⟩ := folder_stack_cons profile rest name
        rw [hrest'] at he
        exact collect_children_inv cH profile cs rest' e he
    · rw [if_neg hf] at he
      by_cases hu : ntype.getD "" = "url"
      · rw [if_pos hu] at he
        exact collect_url_node_inv cH profile rest name url guid nid e he
      · rw [if_neg hu] at he
        simp at he

theorem collect_children_inv (cH : String → String → String) (profile : String) :
    ∀ (cs : List BNode) (rest : List String) (e : BookmarkEntry),
      e ∈ collect_children cH profile (profile :: rest) cs →
      (∃ tail, e.folder_path = some (joinSep " / " (profile :: tail)))
      ∧ e.keywords.Nodup ∧ ∀ k ∈ e.keywords, ¬ rsTrim k = ""
  | [], _, e => by
    intro he
    simp [collect_children] at he
  | c :: cs, rest, e => by
    intro he
    unfold collect_children at he
    rcases List.mem_append.mp he with h | h
    · exact collect_node_inv cH profile c rest e h
    · exact collect_children_inv cH profile cs rest e h

end

/-- Every entry emitted for a bookmarks file has a folder path joining the
profile-label-rooted breadcrumb, and clean keywords. -/
theorem collect_entries_inv (cH : String → String → String)
    (roots : List (String × BNode)) (profile : String) :
    ∀ e ∈ collect_entries_from_file cH roots profile,
      (∃ tail, e.folder_path = some (joinSep " / " (profile :: tail)))
      ∧ e.keywords.Nodup ∧ ∀ k ∈ e.keywords, ¬ rsTrim k = "" := by
  intro e he
  unfold collect_entries_from_file at he
  rcases List.mem_flatMap.mp he with ⟨kv, _, hmem⟩
  have hstack : ∃ rest, [profile]
      ++ (match root_display_label kv.1 with
          | some label => [label]
          | none => []) = profile :: rest := by
    cases root_display_label kv.1 with
    | none => exact ⟨[], rfl⟩
    | some label => exact ⟨[label], rfl⟩
  obtain ⟨rest, hrest⟩ := hstack
  rw [hrest] at hmem
  rcases kv with ⟨key, n⟩
  rcases n with ⟨ntype, name, url, guid, nid, children⟩
  cases children with
  | some cs => exact collect_children_inv cH profile cs rest e hmem
  | none => exact collect_node_inv cH profile (.node ntype name url guid nid none) rest e hmem

/-- The entry emitted for `urlNodeW` at the file root under profile `默认`. -/
def bmRootW : BookmarkEntry :=
  { id := "默认:g", title := "T", url := "https://x.y",
    folder_path := some "默认", keywords := ["T", "https://x.y", "默认"] }

/-- A variant generator emitting one non-blank romanisation. -/
def vW : String → List String := fun _ => ["py"]

/-- A file-name extractor stand-in. -/
def fnW : String → Option String := fun _ => some "f"

/-- Claim C8 (amended): every emitted bookmark entry's folder path is the
breadcrumb stack joined with the fixed separator `" / "`; because the
stack always starts with the profile label it is never empty, so the
folder path is always present — also for root-level bookmarks, for which
the original claim said it would be omitted. -/
theorem c8_folder_path_joined (cH : String → String → String)
    (roots : List (String × BNode)) (profile : String) :
    ∀ e ∈ collect_entries_from_file cH roots profile,
      ∃ tail, e.folder_path = some (joinSep " / " (profile :: tail)) :=
  fun e he => (collect_entries_inv cH roots profile e he).1

/-- Witness for C8 at a one-bookmark tree. -/
theorem c8_folder_path_joined_witness :
    ∃ tail, bmRootW.folder_path = some (joinSep " / " ("默认" :: tail)) :=
  c8_folder_path_joined cH0 [("x", urlNodeW)] "默认" bmRootW (by decide)

/-- Counterexample for C8 as stated: a root-level bookmark — under an
unrecognised root key, so the breadcrumb beyond the profile label is
empty — still gets a folder path, `some "默认"`, where the claim says the
folder path must be absent. The emptiness check in the code is dead: the
stack always contains the profile label. -/
theorem c8_folder_path_cex :
    (collect_entries_from_file cH0 [("x", urlNodeW)] "默认").map
      (fun e => e.folder_path) = [some "默认"] := by
  decide

/-- Claim C10 (amended): every keyword list built by the indexers is
duplicate-free (case-sensitive); shortcut-derived, registry-derived and
bookmark entries contain no blank keyword provided the keyword-expansion
collaborator emits no blank variants (bookmarks unconditionally — they
are not expanded); UWP entries are only guaranteed free of *empty*
keywords, since that site filters with `is_empty` and not `trim` —
whitespace-only keywords can survive there, which is what the original
claim ruled out. -/
theorem c10_keywords_nodup_nonblank (variants : String → List String)
    (hv : ∀ s, ∀ v ∈ variants s, ¬ rsTrim v = "")
    (fileName : String → Option String) (sc_name : String)
    (display_target sc_desc : Option String)
    (display_name : String) (reg_desc version : Option String)
    (uwp_desc : Option String) (uwp_name app_id : String)
    (pkg_name pkg_family pkg_full : Option String)
    (cH : String → String → String) (roots : List (String × BNode))
    (profile : String) :
    ((shortcut_keywords variants fileName sc_name display_target sc_desc).Nodup
      ∧ ∀ k ∈ shortcut_keywords variants fileName sc_name display_target sc_desc,
          ¬ rsTrim k = "")
    ∧ ((registry_keywords variants display_name reg_desc version).Nodup
      ∧ ∀ k ∈ registry_keywords variants display_name reg_desc version,
          ¬ rsTrim k = "")
    ∧ ((uwp_keywords variants uwp_desc uwp_name app_id
          pkg_name pkg_family pkg_full).Nodup
      ∧ ∀ k ∈ uwp_keywords variants uwp_desc uwp_name app_id
          pkg_name pkg_family pkg_full, ¬ k = "")
    ∧ ∀ e ∈ collect_entries_from_file cH roots profile,
        e.keywords.Nodup ∧ ∀ k ∈ e.keywords, ¬ rsTrim k = "" := by
  have hv' : ∀ s, ∀ v ∈ variants s, ¬ v = "" := by
    intro s v hvmem hveq
    exact hv s v hvmem (by rw [hveq]; rfl)
  refine ⟨?_, ?_, ?_, ?_⟩
  · exact keywords_pipeline_ok hv _
  · exact keywords_pipeline_ok hv _
  · exact keywords_pipeline_nonempty hv' _
  · exact fun e he => (collect_entries_inv cH roots profile e he).2

/-- Witness for C10 at concrete inputs with a non-blank variant generator. -/
theorem c10_keywords_nodup_nonblank_witness :
    (shortcut_keywords vW fnW "N" (some "T") none).Nodup :=
  (c10_keywords_nodup_nonblank vW
      (by intro s v hvm; simp [vW] at hvm; subst hvm; decide)
      fnW "N" (some "T") none "D" none none none "U" "A" none none none
      cH0 [] "默认").1.1

/-- Counterexample for C10 as stated: a UWP entry whose display name is
the single space `" "` keeps that whitespace-only keyword — the UWP site
filters only empty strings (indexer.rs:465), not blank ones. -/
theorem c10_keywords_cex :
    " " ∈ uwp_keywords (fun _ => []) none " " "x" none none none
    ∧ ¬ " " = "" ∧ rsTrim " " = "" := by
  decide
